import Mathlib

set_option maxRecDepth 100000

/-
Verification of the storm-event pipeline (src/download_noaa.py and
src/make_tx_dataset.py) against its specification.

Shallow embedding notes:
  * Python strings are Lean `String`s; scanning works on `String.data`
    (a `List Char`); character classes are modelled over ASCII code points
    (`Char.toNat`), matching the ASCII filenames and damage strings the
    pipeline consumes.
  * The regular expression `StormEvents_details-ftp_v1.0_d(\d{4})_c(\d{8})\.csv\.gz`
    is purely literal apart from the two fixed-width digit groups, and its
    matched text can never overlap another occurrence, so `re.finditer` is
    embedded as a left-to-right scanner that, after a hit, resumes right
    after the 51-character match.
  * Python dicts are embedded as insertion-ordered association lists with
    in-place update, mirroring dict key-update semantics.
  * Monetary amounts are embedded as rationals: every value the parser can
    produce is a decimal literal times a power of ten, which `float()` in
    the source represents and which `ℚ` represents exactly.
  * pandas DataFrames are embedded as lists of records; `read_csv` with
    `chunksize` is embedded as chunking the row list; only the columns the
    verified properties touch are carried.
  * Filesystem state (for the download/gunzip skip logic) is a partial map
    from path to byte list; the network and gzip are opaque parameters.
  * Fallible code returns `Except String`; raising an exception in Python
    corresponds to `.error`.
-/

/-! ### Character utilities (ASCII) -/

/-- ASCII decimal digit, the `[0-9]` (and `\d`) character class. -/
def isDig (c : Char) : Bool := decide (48 ≤ c.toNat ∧ c.toNat ≤ 57)

/-- ASCII whitespace, the `\s` class and the characters `str.strip` removes. -/
def isWs (c : Char) : Bool :=
  decide (c.toNat = 32 ∨ c.toNat = 9 ∨ c.toNat = 10 ∨ c.toNat = 11 ∨
          c.toNat = 12 ∨ c.toNat = 13)

/-- ASCII upper-casing of one character, as `str.upper` does per character. -/
def upChar (c : Char) : Char :=
  if 97 ≤ c.toNat ∧ c.toNat ≤ 122 then Char.ofNat (c.toNat - 32) else c

/-- Upper-case a whole string (`str.upper`). -/
def upperStr (s : String) : String := String.mk (s.data.map upChar)

/-- Numeric value of a most-significant-first digit string, as `int()` reads it. -/
def digitsVal (l : List Char) : ℕ := l.foldl (fun a c => 10 * a + (c.toNat - 48)) 0

/-- Drop ASCII whitespace from both ends of a character list (`str.strip`). -/
def stripData (l : List Char) : List Char :=
  ((l.dropWhile isWs).reverse.dropWhile isWs).reverse

/-- `str.strip` on strings. -/
def stripStr (s : String) : String := String.mk (stripData s.data)

/-! ### Fetcher: `build_latest_file_map` (src/download_noaa.py)

`DETAILS_PATTERN = re.compile(r'(StormEvents_details-ftp_v1\.0_d(?P<year>\d{4})_c(?P<cdate>\d{8})\.csv\.gz)')`
-/

/-- The literal head of `DETAILS_PATTERN`, up to the year group. -/
def detailsLit : List Char := String.data ("StormEvents_details-ftp_v1.0_d")

/-- The literal tail of `DETAILS_PATTERN`, after the revision-date group. -/
def gzTail : List Char := String.data (".csv.gz")

/-- Consume an exact literal at the head of the input, or fail. -/
def dropLit : List Char → List Char → Option (List Char)
  | [], cs => some cs
  | _ :: _, [] => none
  | l :: ls, c :: cs => if c = l then dropLit ls cs else none

/-- Consume exactly `n` decimal digits, returning them and the rest. -/
def grabDigits : ℕ → List Char → Option (List Char × List Char)
  | 0, cs => some ([], cs)
  | _ + 1, [] => none
  | n + 1, c :: cs =>
    if isDig c then (grabDigits n cs).map (fun p => (c :: p.1, p.2)) else none

/-- One match of `DETAILS_PATTERN`: the year group, the revision-date
(`cdate`) group, and the whole matched filename (group 1). -/
structure MatchEntry where
  year : ℕ
  cdate : ℕ
  fname : String
deriving DecidableEq, Repr

/-- Try to match `DETAILS_PATTERN` exactly at the head of the input.  The
match, when it exists, is exactly 51 characters long. -/
def matchHere (cs : List Char) : Option MatchEntry :=
  (dropLit detailsLit cs).bind fun r1 =>
  (grabDigits 4 r1).bind fun p1 =>
  (dropLit ['_', 'c'] p1.2).bind fun r3 =>
  (grabDigits 8 r3).bind fun p2 =>
  (dropLit gzTail p2.2).map fun _ =>
  ⟨digitsVal p1.1, digitsVal p2.1,
   String.mk (detailsLit ++ p1.1 ++ '_' :: 'c' :: (p2.1 ++ gzTail))⟩

/-- Left-to-right non-overlapping scan, fuelled by the input length (each
step consumes at least one character, so the fuel never runs out).  After a
hit the scan resumes after the 51-character match, as `finditer` does. -/
def findAux : ℕ → List Char → List MatchEntry
  | 0, _ => []
  | _ + 1, [] => []
  | fuel + 1, c :: cs =>
    match matchHere (c :: cs) with
    | some e => e :: findAux fuel (cs.drop 50)
    | none => findAux fuel cs

/-- All matches of `DETAILS_PATTERN` in the text, in scan order
(`DETAILS_PATTERN.finditer(html)`). -/
def findMatches (l : List Char) : List MatchEntry := findAux l.length l

/-- One step of the `latest` dict update:
`if (year not in latest) or (cdate > latest[year][0]): latest[year] = (cdate, fname)`.
The dict is an insertion-ordered association list; updating an existing key
keeps its position, a new key is appended. -/
def updateLatest : List (ℕ × ℕ × String) → MatchEntry → List (ℕ × ℕ × String)
  | [], e => [(e.year, e.cdate, e.fname)]
  | (y, c, f) :: rest, e =>
    if y = e.year then
      if e.cdate > c then (y, e.cdate, e.fname) :: rest else (y, c, f) :: rest
    else (y, c, f) :: updateLatest rest e

/-- Lookup in the intermediate `latest` dict. -/
def lookupPair : List (ℕ × ℕ × String) → ℕ → Option (ℕ × String)
  | [], _ => none
  | (y, c, f) :: rest, q => if y = q then some (c, f) else lookupPair rest q

/-- Lookup in the returned `{year: fname}` dict. -/
def lookupYear : List (ℕ × String) → ℕ → Option String
  | [], _ => none
  | (y, f) :: rest, q => if y = q then some f else lookupYear rest q

/-- `build_latest_file_map(html)`: scan the listing, raise if nothing
matched, else keep only the latest `cdate` per year and return
`{year: fname}`. -/
def build_latest_file_map (html : String) : Except String (List (ℕ × String)) :=
  let ms := findMatches html.data
  if ms.isEmpty then
    .error ("No StormEvents_details files found in directory listing. NOAA page format may have changed.")
  else
    .ok ((ms.foldl updateLatest []).map (fun p => (p.1, p.2.2)))

/-! ### Fetcher: `download_file` and `gunzip_file` -/

/-- Filesystem state: contents (byte list) per path, `none` when absent. -/
abbrev FSState : Type := String → Option (List ℕ)

/-- `download_file(url, out_path)`: return unchanged if `out_path` exists,
else stream the remote resource (`remote`, the successful-response body per
url) into `out_path`. -/
def download_file (fs : FSState) (url : String) (out : String)
    (remote : String → List ℕ) : FSState :=
  if (fs out).isSome then fs
  else fun p => if p = out then some (remote url) else fs p

/-- `gunzip_file(gz_path, csv_path)`: return unchanged if `csv_path`
exists; else decompress `gz_path` (via the opaque `gunzip`) into
`csv_path`, erroring (as `gzip.open` would) if the source is absent. -/
def gunzip_file (fs : FSState) (gzPath : String) (csvPath : String)
    (gunzip : List ℕ → List ℕ) : Except String FSState :=
  if (fs csvPath).isSome then .ok fs
  else
    match fs gzPath with
    | none => .error ("missing gz file")
    | some content =>
      .ok (fun p => if p = csvPath then some (gunzip content) else fs p)

/-! ### Transformer: `parse_damage_to_dollars` (src/make_tx_dataset.py)

`_DAMAGE_RE = re.compile(r"^\s*([0-9]*\.?[0-9]+)\s*([KMB])?\s*$", re.IGNORECASE)`
-/

/-- A value reaching `parse_damage_to_dollars`: Python `None`, a non-NaN
number, the float NaN (which `pd.isna` flags and `str()` prints as `nan`),
or a string. -/
inductive PyVal where
  | vNone : PyVal
  | vNum : ℚ → PyVal
  | vNaN : PyVal
  | vStr : String → PyVal
deriving DecidableEq

/-- The `[KMB]` class of the damage regex, case-insensitively. -/
def isKMB (c : Char) : Bool :=
  decide (upChar c = 'K' ∨ upChar c = 'M' ∨ upChar c = 'B')

/-- Match the `\s*([KMB])?\s*$` part of the damage regex against what
follows the number group `g1`, returning the two captured groups. -/
def numTail (g1 : List Char) (rest : List Char) : Option (List Char × Option Char) :=
  match rest.dropWhile isWs with
  | [] => some (g1, none)
  | c :: r2 =>
    if isKMB c then
      if (r2.dropWhile isWs).isEmpty then some (g1, some c) else none
    else none

/-- Match `_DAMAGE_RE` against a character list, returning the captured
groups (group 1, the number text; group 2, the optional suffix letter).
The number part `[0-9]*\.?[0-9]+` is the integer digits, then an optional
dot that must be followed by at least one digit; when the committed parse
of the dot fails every backtracking alternative of the regex fails too,
since a leftover `'.'` can never match `\s*([KMB])?\s*$`. -/
def matchDamage (cs : List Char) : Option (List Char × Option Char) :=
  let cs1 := cs.dropWhile isWs
  let ip := cs1.takeWhile isDig
  let r1 := cs1.dropWhile isDig
  match r1 with
  | c :: r2 =>
    if c = '.' then
      let fp := r2.takeWhile isDig
      if fp.isEmpty then none
      else numTail (ip ++ '.' :: fp) (r2.dropWhile isDig)
    else if ip.isEmpty then none else numTail ip r1
  | [] => if ip.isEmpty then none else numTail ip r1

/-- `float()` of a decimal literal matched by `[0-9]*\.?[0-9]+`, as an
exact rational. -/
def floatOfDecimal (g : List Char) : ℚ :=
  let ip := g.takeWhile isDig
  match g.dropWhile isDig with
  | c :: fp =>
    if c = '.' then (digitsVal ip : ℚ) + (digitsVal fp : ℚ) / ((10 : ℚ) ^ fp.length)
    else (digitsVal ip : ℚ)
  | [] => (digitsVal ip : ℚ)

/-- The string branch of `parse_damage_to_dollars`, applied to
`str(value)`: strip, null-like markers to 0, regex match,
`float(m.group(1))`, multiplier from `(m.group(2) or "").upper()`. -/
def parseDamageStr (s : String) : ℚ :=
  let t := stripStr s
  if t.data.isEmpty || (upperStr t == ("NA")) || (upperStr t == ("N/A")) then 0
  else
    match matchDamage t.data with
    | none => 0
    | some (g1, g2) =>
      let amount := floatOfDecimal g1
      let suffix := upperStr (String.mk (g2.elim [] (fun c => [c])))
      let mult : ℚ :=
        if suffix == ("K") then 1000
        else if suffix == ("M") then 1000000
        else if suffix == ("B") then 1000000000
        else 1
      amount * mult

/-- `parse_damage_to_dollars(value)`.  `None` short-circuits to 0; a
non-NaN number passes through; NaN fails the `pd.isna` guard and falls to
the string branch as `str(nan) = "nan"`; strings go to the string branch. -/
def parse_damage_to_dollars : PyVal → ℚ
  | .vNone => 0
  | .vNum x => x
  | .vNaN => parseDamageStr ("nan")
  | .vStr s => parseDamageStr s

/-! ### Transformer: `iter_year_files` -/

/-- Exact-literal head test used by the glob embedding. -/
def hasLead : List Char → List Char → Bool
  | [], _ => true
  | _ :: _, [] => false
  | p :: ps, c :: cs => p = c && hasLead ps cs

/-- Exact-literal tail test used by the glob embedding. -/
def hasTail (t l : List Char) : Bool := hasLead t.reverse l.reverse

/-- Does a filename match `RAW_DIR.glob(f"StormEvents_details-ftp_v1.0_d{year}_c*.csv")`?
`*` matches any (possibly empty) run of characters of the name. -/
def globYear (y : ℕ) (name : String) : Bool :=
  let p := detailsLit ++ (toString y).data ++ ['_', 'c']
  let t := String.data (".csv")
  decide (p.length + t.length ≤ name.data.length) && hasLead p name.data &&
    hasTail t name.data

/-- Lexicographic (code-point) string order, as Python compares the paths
that `sorted` orders. -/
def leChars : List Char → List Char → Bool
  | [], _ => true
  | _ :: _, [] => false
  | a :: as, b :: bs =>
    if a.toNat < b.toNat then true
    else if b.toNat < a.toNat then false
    else leChars as bs

/-- `leChars` on strings. -/
def leStr (a b : String) : Bool := leChars a.data b.data

/-- Insert into a `leStr`-sorted list (one step of `sorted`). -/
def insSorted (x : String) : List String → List String
  | [] => [x]
  | y :: ys => if leStr x y then x :: y :: ys else y :: insSorted x ys

/-- `sorted(...)` on path strings (insertion sort; any correct sort of
strings yields this same list, duplicates being identical). -/
def sortStr : List String → List String
  | [] => []
  | x :: xs => insSorted x (sortStr xs)

/-- `range(start_year, end_year + 1)`. -/
def yearRange (s e : ℕ) : List ℕ := (List.range (e + 1 - s)).map (fun i => s + i)

/-- The per-year loop body of `iter_year_files`, over an explicit year
list: glob, sort, take the last match, raise `FileNotFoundError` when a
year has no match.  `fs` is the list of filenames present in `RAW_DIR`. -/
def iterYearsGo (fs : List String) : List ℕ → Except String (List String)
  | [] => .ok []
  | y :: ys =>
    let ms := sortStr (fs.filter (globYear y))
    match ms.getLast? with
    | none => .error ("No CSV found for year " ++ toString y ++ " in data/raw")
    | some p =>
      match iterYearsGo fs ys with
      | .error msg => .error msg
      | .ok ps => .ok (p :: ps)

/-- `iter_year_files(start_year, end_year)`, fully consumed (as
`list(iter_year_files())` does in `main`). -/
def iter_year_files (fs : List String) (s e : ℕ) : Except String (List String) :=
  iterYearsGo fs (yearRange s e)

/-! ### Transformer: `load_filter_tx_one_file` and `main` -/

/-- The fields of one CSV row that the verified properties touch.  The
remaining `KEEP_COLS` columns ride along unmodified in the source and are
omitted here. -/
structure EventRow where
  state : String
  damageProp : PyVal
  damageCrops : PyVal
  beginYearMonth : ℕ
deriving DecidableEq

/-- A filtered row plus the three derived damage columns. -/
structure NormRow where
  row : EventRow
  damagePropUSD : ℚ
  damageCropsUSD : ℚ
  totalUSD : ℚ
deriving DecidableEq

/-- An output row: a normalised row plus `BEGIN_YEAR` and `BEGIN_MONTH`. -/
structure OutRow where
  base : NormRow
  beginYear : ℕ
  beginMonth : ℕ
deriving DecidableEq

/-- Split a row list into chunks, fuelled by the list length (each step
consumes at least one row).  For a positive chunk size this is exactly
`read_csv(..., chunksize=n)`. -/
def chunksAux (n : ℕ) : ℕ → List EventRow → List (List EventRow)
  | 0, _ => []
  | _ + 1, [] => []
  | fuel + 1, x :: xs =>
    (x :: xs.take (n - 1)) :: chunksAux n fuel (xs.drop (n - 1))

/-- All chunks of a row list. -/
def chunksOf (n : ℕ) (l : List EventRow) : List (List EventRow) :=
  chunksAux n l.length l

/-- Per-row derived columns:
`DAMAGE_PROPERTY_USD`, `DAMAGE_CROPS_USD`, `TOTAL_DAMAGE_USD`. -/
def normalizeRow (r : EventRow) : NormRow :=
  let p := parse_damage_to_dollars r.damageProp
  let c := parse_damage_to_dollars r.damageCrops
  ⟨r, p, c, p + c⟩

/-- `load_filter_tx_one_file`: per chunk, keep rows with
`STATE.str.upper() == "TEXAS"`, skip empty chunks, add the damage columns;
concatenate, or return an empty table when no chunk matched. -/
def load_filter_tx_one_file (rows : List EventRow) (chunksize : ℕ) : List NormRow :=
  let tx_chunks := (chunksOf chunksize rows).foldl
    (fun acc chunk =>
      let filtered := chunk.filter (fun r => upperStr r.state == ("TEXAS"))
      if filtered.isEmpty then acc
      else acc ++ [filtered.map normalizeRow]) []
  if tx_chunks.isEmpty then [] else tx_chunks.flatten

/-- `main()` of the transformer: resolve the per-year files, filter each,
keep the non-empty results, raise when everything was empty, else
concatenate and add `BEGIN_YEAR = ym // 100`, `BEGIN_MONTH = ym % 100`.
`readCsv` maps a path to the rows of that file; returning `.ok` models
writing the parquet artifact. -/
def main_transform (fsNames : List String) (readCsv : String → List EventRow)
    (s e chunksize : ℕ) : Except String (List OutRow) :=
  match iter_year_files fsNames s e with
  | .error msg => .error msg
  | .ok paths =>
    let all_tx := paths.foldl
      (fun acc p =>
        let d := load_filter_tx_one_file (readCsv p) chunksize
        if d.isEmpty then acc else acc ++ [d]) []
    if all_tx.isEmpty then .error ("No Texas records found across all years.")
    else .ok (all_tx.flatten.map
      (fun nr => ⟨nr, nr.row.beginYearMonth / 100, nr.row.beginYearMonth % 100⟩))

/-! ### Lemmas: characters and digit strings -/

theorem charToNat_inj {a b : Char} (h : a.toNat = b.toNat) : a = b := by
  cases a; cases b
  simp only [Char.toNat] at h
  congr 1
  exact UInt32.ext h

theorem isDig_iff {c : Char} : isDig c = true ↔ 48 ≤ c.toNat ∧ c.toNat ≤ 57 := by
  simp [isDig]

theorem isWs_iff {c : Char} :
    isWs c = true ↔
      c.toNat = 32 ∨ c.toNat = 9 ∨ c.toNat = 10 ∨ c.toNat = 11 ∨
      c.toNat = 12 ∨ c.toNat = 13 := by
  simp [isWs]

theorem not_ws_of_dig {c : Char} (h : isDig c = true) : isWs c = false := by
  rw [isDig_iff] at h
  rw [← Bool.not_eq_true, isWs_iff]
  omega

theorem upChar_of_dig {c : Char} (h : isDig c = true) : upChar c = c := by
  rw [isDig_iff] at h
  rw [upChar, if_neg]
  omega

/-- The digit fold, restarted from an arbitrary accumulator. -/
theorem foldlDigits_shift :
    ∀ (l : List Char) (a : ℕ),
      l.foldl (fun a c => 10 * a + (c.toNat - 48)) a =
        a * 10 ^ l.length + l.foldl (fun a c => 10 * a + (c.toNat - 48)) 0 := by
  intro l
  induction l with
  | nil => intro a; simp
  | cons c cs ih =>
    intro a
    simp only [List.foldl_cons, List.length_cons]
    rw [ih (10 * a + (c.toNat - 48)), ih (10 * 0 + (c.toNat - 48))]
    ring

theorem digitsVal_cons (c : Char) (l : List Char) :
    digitsVal (c :: l) = (c.toNat - 48) * 10 ^ l.length + digitsVal l := by
  simp only [digitsVal, List.foldl_cons]
  rw [foldlDigits_shift l (10 * 0 + (c.toNat - 48))]
  ring

theorem digitsVal_lt (l : List Char) (h : ∀ c ∈ l, isDig c = true) :
    digitsVal l < 10 ^ l.length := by
  induction l with
  | nil => simp [digitsVal]
  | cons c cs ih =>
    have hc := (isDig_iff.mp (h c (by simp))).2
    have hcs := ih (fun x hx => h x (by simp [hx]))
    rw [digitsVal_cons, List.length_cons, pow_succ]
    have h9 : c.toNat - 48 ≤ 9 := by omega
    calc (c.toNat - 48) * 10 ^ cs.length + digitsVal cs
        < (c.toNat - 48) * 10 ^ cs.length + 10 ^ cs.length := by omega
      _ = (c.toNat - 48 + 1) * 10 ^ cs.length := by ring
      _ ≤ 10 * 10 ^ cs.length := by
          exact Nat.mul_le_mul_right _ (by omega)
      _ = 10 ^ cs.length * 10 := by ring

/-- Fixed-width decimal digit strings are determined by their value. -/
theorem digits_inj :
    ∀ (l1 l2 : List Char), l1.length = l2.length →
      (∀ c ∈ l1, isDig c = true) → (∀ c ∈ l2, isDig c = true) →
      digitsVal l1 = digitsVal l2 → l1 = l2 := by
  intro l1
  induction l1 with
  | nil =>
    intro l2 hlen _ _ _
    exact (List.length_eq_zero.mp hlen.symm).symm ▸ rfl
  | cons c cs ih =>
    intro l2 hlen hd1 hd2 hval
    cases l2 with
    | nil => simp at hlen
    | cons b bs =>
      simp only [List.length_cons, Nat.succ.injEq] at hlen
      rw [digitsVal_cons, digitsVal_cons, hlen] at hval
      have hvc : digitsVal cs < 10 ^ bs.length := by
        rw [← hlen]; exact digitsVal_lt cs (fun x hx => hd1 x (by simp [hx]))
      have hvb : digitsVal bs < 10 ^ bs.length :=
        digitsVal_lt bs (fun x hx => hd2 x (by simp [hx]))
      have hmod : digitsVal cs = digitsVal bs := by
        have h1 : ((c.toNat - 48) * 10 ^ bs.length + digitsVal cs) % 10 ^ bs.length
            = digitsVal cs := by
          rw [Nat.mul_comm, Nat.mul_add_mod, Nat.mod_eq_of_lt hvc]
        have h2 : ((b.toNat - 48) * 10 ^ bs.length + digitsVal bs) % 10 ^ bs.length
            = digitsVal bs := by
          rw [Nat.mul_comm, Nat.mul_add_mod, Nat.mod_eq_of_lt hvb]
        rw [← h1, ← h2, hval]
      have hpos : 0 < 10 ^ bs.length := Nat.pos_pow_of_pos _ (by omega)
      have hP : (c.toNat - 48) * 10 ^ bs.length = (b.toNat - 48) * 10 ^ bs.length := by
        rw [hmod] at hval
        omega
      have hhead : c.toNat - 48 = b.toNat - 48 :=
        Nat.eq_of_mul_eq_mul_right hpos hP
      have hc48 := (isDig_iff.mp (hd1 c (by simp))).1
      have hb48 := (isDig_iff.mp (hd2 b (by simp))).1
      have hcb : c = b := charToNat_inj (by omega)
      rw [hcb, ih bs hlen (fun x hx => hd1 x (by simp [hx]))
        (fun x hx => hd2 x (by simp [hx])) hmod]

/-! ### Lemmas: the latest-per-year fold -/

/-- The per-year projection of one `updateLatest` step. -/
def selPair (o : Option (ℕ × String)) (e : MatchEntry) : Option (ℕ × String) :=
  match o with
  | none => some (e.cdate, e.fname)
  | some (c, f) => if e.cdate > c then some (e.cdate, e.fname) else some (c, f)

theorem lookupPair_updateLatest (acc : List (ℕ × ℕ × String)) (e : MatchEntry) (q : ℕ) :
    lookupPair (updateLatest acc e) q =
      if e.year = q then selPair (lookupPair acc q) e else lookupPair acc q := by
  induction acc with
  | nil =>
    by_cases h : e.year = q <;> simp [updateLatest, lookupPair, selPair, h]
  | cons hd rest ih =>
    obtain ⟨y, c, f⟩ := hd
    by_cases hy : y = e.year
    · by_cases hq : y = q
      · have heq : e.year = q := by rw [← hy, hq]
        by_cases hc : e.cdate > c
        · simp [updateLatest, lookupPair, selPair, hy, hq, heq, hc]
        · simp [updateLatest, lookupPair, selPair, hy, hq, heq, hc]
      · have hne : e.year ≠ q := by rw [← hy]; exact hq
        by_cases hc : e.cdate > c
        · simp [updateLatest, lookupPair, selPair, hy, hq, hne, hc]
        · simp [updateLatest, lookupPair, selPair, hy, hq, hne, hc]
    · by_cases hq : y = q
      · have hne : e.year ≠ q := by
          rw [← hq]
          exact fun hh => hy hh.symm
        have hy2 : ¬q = e.year := by
          rw [← hq]
          exact hy
        simp [updateLatest, lookupPair, hy, hy2, hq, hne]
      · simp [updateLatest, lookupPair, hy, hq, ih]

/-- The per-year projection of the whole fold. -/
theorem lookupPair_foldl (ms : List MatchEntry) :
    ∀ (acc : List (ℕ × ℕ × String)) (q : ℕ),
      lookupPair (ms.foldl updateLatest acc) q =
        ms.foldl (fun o e => if e.year = q then selPair o e else o) (lookupPair acc q) := by
  induction ms with
  | nil => intro acc q; rfl
  | cons e ms ih =>
    intro acc q
    simp only [List.foldl_cons]
    rw [ih (updateLatest acc e) q, lookupPair_updateLatest]

theorem latestFold_eq_none (q : ℕ) :
    ∀ (ms : List MatchEntry) (o : Option (ℕ × String)),
      ms.foldl (fun o e => if e.year = q then selPair o e else o) o = none ↔
        o = none ∧ ∀ e ∈ ms, e.year ≠ q := by
  intro ms
  induction ms with
  | nil => intro o; simp
  | cons e ms ih =>
    intro o
    simp only [List.foldl_cons]
    by_cases hy : e.year = q
    · rw [ih]
      have hsel : selPair o e ≠ none := by
        cases o with
        | none => simp [selPair]
        | some p =>
          obtain ⟨c, f⟩ := p
          by_cases hc : e.cdate > c <;> simp [selPair, hc]
      simp only [hy, if_pos]
      constructor
      · rintro ⟨h1, _⟩; exact absurd h1 hsel
      · rintro ⟨_, h2⟩; exact absurd hy (h2 e (by simp))
    · rw [if_neg hy, ih]
      constructor
      · rintro ⟨h1, h2⟩
        exact ⟨h1, by
          intro x hx
          rcases List.mem_cons.mp hx with h | h
          · subst h; exact hy
          · exact h2 x h⟩
      · rintro ⟨h1, h2⟩
        exact ⟨h1, fun x hx => h2 x (by simp [hx])⟩

theorem latestFold_spec (q : ℕ) :
    ∀ (ms : List MatchEntry) (o : Option (ℕ × String)) (c : ℕ) (f : String),
      ms.foldl (fun o e => if e.year = q then selPair o e else o) o = some (c, f) →
      (o = some (c, f) ∨ ∃ e ∈ ms, e.year = q ∧ e.cdate = c ∧ e.fname = f) ∧
      (∀ e ∈ ms, e.year = q → e.cdate ≤ c) ∧
      (∀ c0 f0, o = some (c0, f0) → c0 ≤ c) := by
  intro ms
  induction ms with
  | nil =>
    intro o c f h
    simp only [List.foldl_nil] at h
    refine ⟨Or.inl h, by simp, ?_⟩
    intro c0 f0 h0
    rw [h0] at h
    simp at h
    omega
  | cons e ms ih =>
    intro o c f h
    simp only [List.foldl_cons] at h
    by_cases hy : e.year = q
    · rw [if_pos hy] at h
      obtain ⟨hmem, hmax, hini⟩ := ih (selPair o e) c f h
      have hstep : (selPair o e = some (e.cdate, e.fname) ∧ (∀ c0 f0, o = some (c0, f0) → c0 ≤ e.cdate)) ∨
          (selPair o e = o ∧ ∃ c0 f0, o = some (c0, f0) ∧ e.cdate ≤ c0) := by
        cases o with
        | none => exact Or.inl ⟨rfl, by simp⟩
        | some p =>
          obtain ⟨c0, f0⟩ := p
          by_cases hc : e.cdate > c0
          · exact Or.inl ⟨by simp [selPair, hc], by
              intro c1 f1 h1
              simp only [Option.some.injEq, Prod.mk.injEq] at h1
              omega⟩
          · exact Or.inr ⟨by simp [selPair, hc], c0, f0, rfl, by omega⟩
      rcases hstep with ⟨hsel, hle⟩ | ⟨hsel, c0, f0, ho, hec0⟩
      · refine ⟨?_, ?_, ?_⟩
        · rcases hmem with hmem | ⟨x, hx, hprops⟩
          · rw [hsel] at hmem
            simp only [Option.some.injEq, Prod.mk.injEq] at hmem
            exact Or.inr ⟨e, by simp, hy, hmem.1, hmem.2⟩
          · exact Or.inr ⟨x, by simp [hx], hprops⟩
        · intro x hx hxq
          rcases List.mem_cons.mp hx with hh | hh
          · rw [hh]
            exact hini e.cdate e.fname hsel
          · exact hmax x hh hxq
        · intro c0 f0 h0
          exact le_trans (hle c0 f0 h0) (hini e.cdate e.fname hsel)
      · rw [hsel] at hmem hini
        refine ⟨?_, ?_, hini⟩
        · rcases hmem with hmem | ⟨x, hx, hprops⟩
          · exact Or.inl hmem
          · exact Or.inr ⟨x, by simp [hx], hprops⟩
        · intro x hx hxq
          rcases List.mem_cons.mp hx with hh | hh
          · rw [hh]
            exact le_trans hec0 (hini c0 f0 ho)
          · exact hmax x hh hxq
    · rw [if_neg hy] at h
      obtain ⟨hmem, hmax, hini⟩ := ih o c f h
      refine ⟨?_, ?_, hini⟩
      · rcases hmem with hmem | ⟨x, hx, hprops⟩
        · exact Or.inl hmem
        · exact Or.inr ⟨x, by simp [hx], hprops⟩
      · intro x hx hxq
        rcases List.mem_cons.mp hx with hh | hh
        · subst hh; exact absurd hxq hy
        · exact hmax x hh hxq

theorem lookupYear_map (L : List (ℕ × ℕ × String)) (q : ℕ) :
    lookupYear (L.map (fun p => (p.1, p.2.2))) q = (lookupPair L q).map Prod.snd := by
  induction L with
  | nil => rfl
  | cons hd rest ih =>
    obtain ⟨y, c, f⟩ := hd
    by_cases hq : y = q <;> simp [lookupYear, lookupPair, hq, ih]

/-- Shared backbone for the per-year correctness of `build_latest_file_map`:
whenever the scan found at least one entry for year `y`, the returned map
is defined, and maps `y` to the filename of an entry for `y` carrying the
maximal revision date. -/
theorem blfm_spec (html : String) (y : ℕ)
    (hne : ∃ e ∈ findMatches html.data, e.year = y) :
    ∃ m c f, build_latest_file_map html = .ok m ∧ lookupYear m y = some f ∧
      (⟨y, c, f⟩ : MatchEntry) ∈ findMatches html.data ∧
      ∀ e ∈ findMatches html.data, e.year = y → e.cdate ≤ c := by
  obtain ⟨e0, he0, hy0⟩ := hne
  have hnil : findMatches html.data ≠ [] := by
    intro h
    rw [h] at he0
    exact absurd he0 (List.not_mem_nil e0)
  have hmap : build_latest_file_map html =
      .ok (((findMatches html.data).foldl updateLatest []).map (fun p => (p.1, p.2.2))) := by
    rw [build_latest_file_map]
    simp only [List.isEmpty_iff]
    rw [if_neg hnil]
  have hlook := lookupPair_foldl (findMatches html.data) [] y
  have hnn : (findMatches html.data).foldl
      (fun o e => if e.year = y then selPair o e else o) (lookupPair [] y) ≠ none := by
    intro hfold
    obtain ⟨-, hall⟩ := (latestFold_eq_none y (findMatches html.data) (lookupPair [] y)).mp hfold
    exact hall e0 he0 hy0
  obtain ⟨p, hp⟩ := Option.ne_none_iff_exists'.mp hnn
  obtain ⟨c, f⟩ := p
  obtain ⟨hmem, hmax, _⟩ := latestFold_spec y (findMatches html.data) (lookupPair [] y) c f hp
  rcases hmem with hmem | ⟨x, hx, hxy, hxc, hxf⟩
  · exact absurd hmem (by simp [lookupPair])
  · refine ⟨_, c, f, hmap, ?_, ?_, hmax⟩
    · rw [lookupYear_map, hlook, hp]
      rfl
    · have : x = ⟨y, c, f⟩ := by
        cases x
        simp only [MatchEntry.mk.injEq]
        exact ⟨hxy, hxc, hxf⟩
      rw [← this]
      exact hx

/-! ### Lemmas: the scanner determines filenames from year and cdate -/

theorem grabDigits_spec :
    ∀ (n : ℕ) (l ds r : List Char), grabDigits n l = some (ds, r) →
      ds.length = n ∧ ∀ c ∈ ds, isDig c = true := by
  intro n
  induction n with
  | zero =>
    intro l ds r h
    simp only [grabDigits, Option.some.injEq, Prod.mk.injEq] at h
    rw [← h.1]
    simp
  | succ n ih =>
    intro l ds r h
    cases l with
    | nil => simp [grabDigits] at h
    | cons c cs =>
      simp only [grabDigits] at h
      by_cases hc : isDig c
      · rw [if_pos hc] at h
        obtain ⟨⟨ds0, r0⟩, hg, hmap⟩ := Option.map_eq_some'.mp h
        obtain ⟨hlen, hds⟩ := ih cs ds0 r0 hg
        simp only [Prod.mk.injEq] at hmap
        rw [← hmap.1]
        constructor
        · simp [hlen]
        · intro x hx
          rcases List.mem_cons.mp hx with rfl | hx2
          · exact hc
          · exact hds x hx2
      · rw [if_neg hc] at h
        exact absurd h (by simp)

theorem matchHere_shape (cs : List Char) (e : MatchEntry)
    (h : matchHere cs = some e) :
    ∃ yds cds : List Char,
      yds.length = 4 ∧ cds.length = 8 ∧
      (∀ c ∈ yds, isDig c = true) ∧ (∀ c ∈ cds, isDig c = true) ∧
      e.year = digitsVal yds ∧ e.cdate = digitsVal cds ∧
      e.fname = String.mk (detailsLit ++ yds ++ '_' :: 'c' :: (cds ++ gzTail)) := by
  rw [matchHere] at h
  obtain ⟨r1, _, h⟩ := Option.bind_eq_some.mp h
  obtain ⟨⟨yds, r2⟩, hg1, h⟩ := Option.bind_eq_some.mp h
  obtain ⟨r3, _, h⟩ := Option.bind_eq_some.mp h
  obtain ⟨⟨cds, r4⟩, hg2, h⟩ := Option.bind_eq_some.mp h
  obtain ⟨r5, _, h⟩ := Option.map_eq_some'.mp h
  obtain ⟨hy4, hyd⟩ := grabDigits_spec 4 r1 yds r2 hg1
  obtain ⟨hc8, hcd⟩ := grabDigits_spec 8 r3 cds r4 hg2
  refine ⟨yds, cds, hy4, hc8, hyd, hcd, ?_, ?_, ?_⟩ <;> rw [← h]

theorem findAux_origin :
    ∀ (fuel : ℕ) (l : List Char) (e : MatchEntry), e ∈ findAux fuel l →
      ∃ cs, matchHere cs = some e := by
  intro fuel
  induction fuel with
  | zero => intro l e h; simp [findAux] at h
  | succ fuel ih =>
    intro l e h
    cases l with
    | nil => simp [findAux] at h
    | cons c cs =>
      simp only [findAux] at h
      cases hm : matchHere (c :: cs) with
      | some e0 =>
        rw [hm] at h
        rcases List.mem_cons.mp h with rfl | h2
        · exact ⟨c :: cs, hm⟩
        · exact ih _ e h2
      | none =>
        rw [hm] at h
        exact ih _ e h

/-- Two scanner entries with the same year and revision date have the same
filename: the digit groups are fixed-width, so the value determines the
digit text, and the rest of the match is literal. -/
theorem fname_determined {l1 l2 : List Char} {e1 e2 : MatchEntry}
    (h1 : e1 ∈ findMatches l1) (h2 : e2 ∈ findMatches l2)
    (hy : e1.year = e2.year) (hc : e1.cdate = e2.cdate) : e1.fname = e2.fname := by
  obtain ⟨cs1, hm1⟩ := findAux_origin _ _ _ h1
  obtain ⟨cs2, hm2⟩ := findAux_origin _ _ _ h2
  obtain ⟨y1, c1, hy1, hc1, hyd1, hcd1, hey1, hec1, hef1⟩ := matchHere_shape _ _ hm1
  obtain ⟨y2, c2, hy2, hc2, hyd2, hcd2, hey2, hec2, hef2⟩ := matchHere_shape _ _ hm2
  have hyeq : y1 = y2 := by
    apply digits_inj y1 y2 (by rw [hy1, hy2]) hyd1 hyd2
    rw [← hey1, ← hey2, hy]
  have hceq : c1 = c2 := by
    apply digits_inj c1 c2 (by rw [hc1, hc2]) hcd1 hcd2
    rw [← hec1, ← hec2, hc]
  rw [hef1, hef2, hyeq, hceq]

/-! ### Claims C1, C3, C4 (build_latest_file_map) -/

/-- Claim C1: for every input text and every year, when the text contains
one or more filenames matching the naming convention for that year, the
mapping returned by `build_latest_file_map` assigns that year exactly the
filename whose eight-digit revision-date suffix is numerically largest
among all matching filenames for that year. -/
theorem c1_latest_per_year (html : String) (y : ℕ)
    (hne : ∃ e ∈ findMatches html.data, e.year = y) :
    ∃ m c f, build_latest_file_map html = .ok m ∧ lookupYear m y = some f ∧
      (⟨y, c, f⟩ : MatchEntry) ∈ findMatches html.data ∧
      ∀ e ∈ findMatches html.data, e.year = y → e.cdate ≤ c :=
  blfm_spec html y hne

/-- Concrete instantiation of `c1_latest_per_year` on the spec's own
example listing (years 2020, revision dates 20210115 and 20220601). -/
theorem c1_latest_per_year_witness :
    (∃ e ∈ findMatches (String.data ("x StormEvents_details-ftp_v1.0_d2020_c20210115.csv.gz StormEvents_details-ftp_v1.0_d2020_c20220601.csv.gz")), e.year = 2020) ∧
    (∃ m c f,
      build_latest_file_map ("x StormEvents_details-ftp_v1.0_d2020_c20210115.csv.gz StormEvents_details-ftp_v1.0_d2020_c20220601.csv.gz") = .ok m ∧
      lookupYear m 2020 = some f ∧
      (⟨2020, c, f⟩ : MatchEntry) ∈ findMatches (String.data ("x StormEvents_details-ftp_v1.0_d2020_c20210115.csv.gz StormEvents_details-ftp_v1.0_d2020_c20220601.csv.gz")) ∧
      ∀ e ∈ findMatches (String.data ("x StormEvents_details-ftp_v1.0_d2020_c20210115.csv.gz StormEvents_details-ftp_v1.0_d2020_c20220601.csv.gz")),
        e.year = 2020 → e.cdate ≤ c) :=
  ⟨by decide, c1_latest_per_year ("x StormEvents_details-ftp_v1.0_d2020_c20210115.csv.gz StormEvents_details-ftp_v1.0_d2020_c20220601.csv.gz") 2020 (by decide)⟩

/-- Claim C4: `build_latest_file_map` raises exactly when the text has no
matching filename; with no matches it raises instead of returning an empty
mapping. -/
theorem c4_raises_iff_no_matches (html : String) :
    (∃ msg, build_latest_file_map html = .error msg) ↔ findMatches html.data = [] := by
  rw [build_latest_file_map]
  by_cases h : findMatches html.data = []
  · simp [h]
  · simp [h]

/-- Concrete instantiation of `c4_raises_iff_no_matches`: a listing with
no matching filename makes `build_latest_file_map` raise. -/
theorem c4_raises_iff_no_matches_witness :
    ∃ msg, build_latest_file_map ("hello world") = .error msg :=
  (c4_raises_iff_no_matches ("hello world")).mpr (by decide)

/-- A directory listing containing, for year 2020, one filename with
revision date 9 and then the same filename with revision date 5 twice:
two of its filenames have numerically equal revision-date suffixes, yet
the map resolves 2020 to the revision-9 filename, not to the last-seen of
the equal-suffix pair.  This refutes claim C3 as stated. -/
def cexListing : String :=
  "x StormEvents_details-ftp_v1.0_d2020_c00000009.csv.gz StormEvents_details-ftp_v1.0_d2020_c00000005.csv.gz StormEvents_details-ftp_v1.0_d2020_c00000005.csv.gz"

/-- Claim C3 counterexample: `cexListing` contains two (equal) filenames
for year 2020 whose revision-date suffixes are both 5, the last-seen of
those is the `c00000005` filename, but `build_latest_file_map` maps 2020
to the `c00000009` filename, which differs from it. -/
theorem c3_counterexample :
    ((findMatches cexListing.data).filter (fun e => e.year == 2020 && e.cdate == 5)).length = 2 ∧
    ((findMatches cexListing.data).filter (fun e => e.year == 2020 && e.cdate == 5)).getLast? =
      some ⟨2020, 5, ("StormEvents_details-ftp_v1.0_d2020_c00000005.csv.gz")⟩ ∧
    build_latest_file_map cexListing =
      .ok [(2020, ("StormEvents_details-ftp_v1.0_d2020_c00000009.csv.gz"))] ∧
    ("StormEvents_details-ftp_v1.0_d2020_c00000009.csv.gz") ≠
      ("StormEvents_details-ftp_v1.0_d2020_c00000005.csv.gz") :=
  ⟨by decide, by decide, rfl, by decide⟩

/-- Claim C3 (amended): for every input text containing two or more
filenames for the same year whose revision-date suffixes are numerically
equal and maximal among that year's matches, `build_latest_file_map` maps
that year to the last-seen of those filenames in scan order (the code
keeps the first-seen entry, but filenames with the same year and revision
date are identical strings, so the value equals the last-seen one). -/
theorem c3_tie_goes_to_last_seen (html : String) (y c : ℕ)
    (h2 : 2 ≤ ((findMatches html.data).filter (fun e => e.year == y && e.cdate == c)).length)
    (hmax : ∀ e ∈ findMatches html.data, e.year = y → e.cdate ≤ c) :
    ∃ m, build_latest_file_map html = .ok m ∧
      lookupYear m y =
        (((findMatches html.data).filter (fun e => e.year == y && e.cdate == c)).getLast?).map
          (fun e => e.fname) := by
  have hFne : ((findMatches html.data).filter (fun e => e.year == y && e.cdate == c)) ≠ [] := by
    intro h
    rw [h] at h2
    simp at h2
  obtain ⟨e1, he1⟩ := List.exists_mem_of_ne_nil _ hFne
  have he1' := List.mem_filter.mp he1
  have he1y : e1.year = y := by
    have := he1'.2
    simp only [Bool.and_eq_true, beq_iff_eq] at this
    exact this.1
  have he1c : e1.cdate = c := by
    have := he1'.2
    simp only [Bool.and_eq_true, beq_iff_eq] at this
    exact this.2
  obtain ⟨m, c', f, hok, hlook, hmem, hmx⟩ :=
    blfm_spec html y ⟨e1, he1'.1, he1y⟩
  have hcc : c' = c := by
    have h1 : e1.cdate ≤ c' := hmx e1 he1'.1 he1y
    have h2 : (⟨y, c', f⟩ : MatchEntry).cdate ≤ c := hmax ⟨y, c', f⟩ hmem rfl
    simp only at h2
    omega
  cases hlast : ((findMatches html.data).filter (fun e => e.year == y && e.cdate == c)).getLast? with
  | none =>
    exact absurd (List.getLast?_eq_none_iff.mp hlast) hFne
  | some elast =>
    have hel := List.mem_filter.mp (List.mem_of_mem_getLast? hlast)
    have hely : elast.year = y := by
      have := hel.2
      simp only [Bool.and_eq_true, beq_iff_eq] at this
      exact this.1
    have helc : elast.cdate = c := by
      have := hel.2
      simp only [Bool.and_eq_true, beq_iff_eq] at this
      exact this.2
    have hfn : (⟨y, c', f⟩ : MatchEntry).fname = elast.fname :=
      fname_determined hmem hel.1 (by simp [hely]) (by simp [helc, hcc])
    refine ⟨m, hok, ?_⟩
    rw [hlook, Option.map_some']
    simp only at hfn
    rw [hfn]

/-- Concrete instantiation of `c3_tie_goes_to_last_seen`: a listing with
the same year-2020, revision-20220101 filename twice. -/
theorem c3_tie_goes_to_last_seen_witness :
    (2 ≤ ((findMatches (String.data ("StormEvents_details-ftp_v1.0_d2020_c20220101.csv.gz StormEvents_details-ftp_v1.0_d2020_c20220101.csv.gz"))).filter (fun e => e.year == 2020 && e.cdate == 20220101)).length) ∧
    (∃ m, build_latest_file_map ("StormEvents_details-ftp_v1.0_d2020_c20220101.csv.gz StormEvents_details-ftp_v1.0_d2020_c20220101.csv.gz") = .ok m ∧
      lookupYear m 2020 =
        (((findMatches (String.data ("StormEvents_details-ftp_v1.0_d2020_c20220101.csv.gz StormEvents_details-ftp_v1.0_d2020_c20220101.csv.gz"))).filter (fun e => e.year == 2020 && e.cdate == 20220101)).getLast?).map
          (fun e => e.fname)) :=
  ⟨by decide,
   c3_tie_goes_to_last_seen ("StormEvents_details-ftp_v1.0_d2020_c20220101.csv.gz StormEvents_details-ftp_v1.0_d2020_c20220101.csv.gz") 2020 20220101
     (by decide) (by decide)⟩

/-! ### Claim C9 (download_file and gunzip_file idempotence) -/

/-- Claim C9: `download_file` and `gunzip_file` skip entirely when the
destination exists, leaving the filesystem unchanged, and a second call
against the same destination is a no-op, leaving every file (the
destination included) byte-identical. -/
theorem c9_idempotent (fs : FSState) (u o gzP csvP : String)
    (remote : String → List ℕ) (gz : List ℕ → List ℕ) :
    (∀ c, fs o = some c → download_file fs u o remote = fs) ∧
    download_file (download_file fs u o remote) u o remote = download_file fs u o remote ∧
    (∀ d, fs csvP = some d → gunzip_file fs gzP csvP gz = .ok fs) ∧
    (∀ fs2, gunzip_file fs gzP csvP gz = .ok fs2 → gunzip_file fs2 gzP csvP gz = .ok fs2) := by
  refine ⟨?_, ?_, ?_, ?_⟩
  · intro c h
    rw [download_file, if_pos (by rw [h]; rfl)]
  · by_cases h : (fs o).isSome
    · have hinner : download_file fs u o remote = fs := by
        rw [download_file, if_pos h]
      rw [hinner]
      exact hinner
    · have h1 : download_file fs u o remote = fun p => if p = o then some (remote u) else fs p := by
        rw [download_file, if_neg h]
      have h2 : ((fun p => if p = o then some (remote u) else fs p) o).isSome = true := by
        simp
      rw [h1, download_file, if_pos h2]
  · intro d h
    rw [gunzip_file, if_pos (by rw [h]; rfl)]
  · intro fs2 h
    by_cases hc : (fs csvP).isSome
    · rw [gunzip_file, if_pos hc] at h
      have : fs = fs2 := by
        injection h
      rw [← this, gunzip_file, if_pos hc]
    · rw [gunzip_file, if_neg hc] at h
      cases hg : fs gzP with
      | none =>
        rw [hg] at h
        exact absurd h (by simp)
      | some content =>
        rw [hg] at h
        have h2 : fs2 = fun p => if p = csvP then some (gz content) else fs p := by
          injection h with h
          exact h.symm
        have h3 : (fs2 csvP).isSome = true := by
          rw [h2]
          simp
        rw [gunzip_file, if_pos h3]

/-- Concrete instantiation of `c9_idempotent`: a filesystem already
holding the destination file is left untouched by both functions. -/
theorem c9_idempotent_witness :
    download_file (fun p => if p = ("a.csv") then some [7] else none) ("u") ("a.csv") (fun _ => [1]) =
      (fun p => if p = ("a.csv") then some [7] else none) ∧
    gunzip_file (fun p => if p = ("a.csv") then some [7] else none) ("g.gz") ("a.csv") (fun l => l) =
      .ok (fun p => if p = ("a.csv") then some [7] else none) :=
  ⟨(c9_idempotent (fun p => if p = ("a.csv") then some [7] else none) ("u") ("a.csv") ("g.gz") ("a.csv") (fun _ => [1]) (fun l => l)).1 [7] (by decide),
   (c9_idempotent (fun p => if p = ("a.csv") then some [7] else none) ("u") ("a.csv") ("g.gz") ("a.csv") (fun _ => [1]) (fun l => l)).2.2.1 [7] (by decide)⟩

/-! ### Claim C10 (NaN handling) -/

/-- Claim C10: for a NaN numeric input, `parse_damage_to_dollars` returns
0 rather than passing the NaN through: NaN fails the `pd.isna` guard on
the numeric fast path, and `str(nan) = "nan"` matches neither the
null-like markers nor the damage pattern, so the parser falls through to
the catch-all 0. -/
theorem c10_nan_is_zero : parse_damage_to_dollars .vNaN = 0 := by decide

/-! ### Lemmas: chunking and the region filter -/

theorem chunksAux_flatten (n : ℕ) :
    ∀ (fuel : ℕ) (l : List EventRow), l.length ≤ fuel →
      (chunksAux n fuel l).flatten = l := by
  intro fuel
  induction fuel with
  | zero =>
    intro l hl
    have hnil : l = [] := List.length_eq_zero.mp (by omega)
    subst hnil
    rfl
  | succ fuel ih =>
    intro l hl
    cases l with
    | nil => rfl
    | cons x xs =>
      simp only [chunksAux, List.flatten_cons]
      rw [ih (xs.drop (n - 1)) (by
        rw [List.length_drop]
        simp only [List.length_cons] at hl
        omega)]
      simp [List.cons_append, List.take_append_drop]

theorem chunksOf_flatten (n : ℕ) (l : List EventRow) : (chunksOf n l).flatten = l :=
  chunksAux_flatten n l.length l le_rfl

theorem filterChunks_flatten (L : List (List EventRow)) :
    ∀ acc : List (List NormRow),
      (L.foldl (fun acc chunk =>
        let filtered := chunk.filter (fun r => upperStr r.state == ("TEXAS"))
        if filtered.isEmpty then acc
        else acc ++ [filtered.map normalizeRow]) acc).flatten =
      acc.flatten ++
        (L.flatten.filter (fun r => upperStr r.state == ("TEXAS"))).map normalizeRow := by
  induction L with
  | nil => intro acc; simp
  | cons chunk L ih =>
    intro acc
    simp only [List.foldl_cons, List.flatten_cons, List.filter_append, List.map_append]
    rw [ih]
    by_cases h : (chunk.filter (fun r => upperStr r.state == ("TEXAS"))).isEmpty = true
    · rw [if_pos h]
      have h2 : chunk.filter (fun r => upperStr r.state == ("TEXAS")) = [] :=
        List.isEmpty_iff.mp h
      rw [h2]
      simp
    · rw [if_neg h]
      simp [List.append_assoc]

/-! ### Claim C5 (load_filter_tx_one_file) -/

/-- Claim C5: `load_filter_tx_one_file` retains exactly the rows whose
state field equals the target region under case-insensitive comparison
(`STATE.str.upper() == "TEXAS"`), in order, each extended with the derived
damage columns; in particular an input with zero matching rows yields the
empty table (the function is total, so no error is possible). -/
theorem c5_region_filter (rows : List EventRow) (chunksize : ℕ) :
    load_filter_tx_one_file rows chunksize =
      (rows.filter (fun r => upperStr r.state == ("TEXAS"))).map normalizeRow := by
  rw [load_filter_tx_one_file]
  have hmain := filterChunks_flatten (chunksOf chunksize rows) []
  rw [chunksOf_flatten, List.flatten_nil, List.nil_append] at hmain
  by_cases he : ((chunksOf chunksize rows).foldl (fun acc chunk =>
      let filtered := chunk.filter (fun r => upperStr r.state == ("TEXAS"))
      if filtered.isEmpty then acc
      else acc ++ [filtered.map normalizeRow]) []).isEmpty = true
  · rw [if_pos he]
    rw [List.isEmpty_iff.mp he] at hmain
    rw [← hmain]
    rfl
  · rw [if_neg he]
    exact hmain

/-! ### Lemmas: the transformer orchestration -/

theorem mainAccum_eq_nil (readCsv : String → List EventRow) (cz : ℕ) :
    ∀ (paths : List String) (acc : List (List NormRow)),
      (paths.foldl (fun acc p =>
        let d := load_filter_tx_one_file (readCsv p) cz
        if d.isEmpty then acc else acc ++ [d]) acc) = [] ↔
      acc = [] ∧ ∀ p ∈ paths, load_filter_tx_one_file (readCsv p) cz = [] := by
  intro paths
  induction paths with
  | nil => intro acc; simp
  | cons p ps ih =>
    intro acc
    simp only [List.foldl_cons]
    rw [ih]
    by_cases h : (load_filter_tx_one_file (readCsv p) cz).isEmpty = true
    · have h2 : load_filter_tx_one_file (readCsv p) cz = [] := List.isEmpty_iff.mp h
      rw [if_pos h]
      constructor
      · rintro ⟨h1, hall⟩
        refine ⟨h1, ?_⟩
        intro q hq
        rcases List.mem_cons.mp hq with rfl | hq2
        · exact h2
        · exact hall q hq2
      · rintro ⟨h1, hall⟩
        exact ⟨h1, fun q hq => hall q (by simp [hq])⟩
    · rw [if_neg h]
      have h2 : load_filter_tx_one_file (readCsv p) cz ≠ [] := by
        intro hx
        rw [hx] at h
        exact h rfl
      constructor
      · rintro ⟨h1, _⟩
        exact absurd h1 (by simp)
      · rintro ⟨_, hall⟩
        exact absurd (hall p (by simp)) h2

/-! ### Claims C7 and C8 (transformer main) -/

/-- Claim C7: given the per-year files resolve, the transformer raises
exactly when every year's filtered result is empty; when at least one year
yields a non-empty result no error is raised and the output artifact is
produced. -/
theorem c7_empty_union_fatal (fsNames : List String) (readCsv : String → List EventRow)
    (s e cz : ℕ) (paths : List String)
    (hok : iter_year_files fsNames s e = .ok paths) :
    ((∃ msg, main_transform fsNames readCsv s e cz = .error msg) ↔
      ∀ p ∈ paths, load_filter_tx_one_file (readCsv p) cz = []) ∧
    ((∃ p ∈ paths, load_filter_tx_one_file (readCsv p) cz ≠ []) →
      ∃ out, main_transform fsNames readCsv s e cz = .ok out) := by
  have hun : main_transform fsNames readCsv s e cz =
      (if (paths.foldl (fun acc p =>
          let d := load_filter_tx_one_file (readCsv p) cz
          if d.isEmpty then acc else acc ++ [d]) []).isEmpty then
        .error ("No Texas records found across all years.")
      else .ok ((paths.foldl (fun acc p =>
          let d := load_filter_tx_one_file (readCsv p) cz
          if d.isEmpty then acc else acc ++ [d]) []).flatten.map
        (fun nr => ⟨nr, nr.row.beginYearMonth / 100, nr.row.beginYearMonth % 100⟩))) := by
    rw [main_transform, hok]
  by_cases he : (paths.foldl (fun acc p =>
      let d := load_filter_tx_one_file (readCsv p) cz
      if d.isEmpty then acc else acc ++ [d]) []).isEmpty = true
  · have hall := (mainAccum_eq_nil readCsv cz paths []).mp (List.isEmpty_iff.mp he)
    refine ⟨⟨fun _ => hall.2, fun _ => ?_⟩, ?_⟩
    · rw [hun, if_pos he]
      exact ⟨_, rfl⟩
    · rintro ⟨p, hp, hnep⟩
      exact absurd (hall.2 p hp) hnep
  · have hne2 : ¬ ((paths.foldl (fun acc p =>
        let d := load_filter_tx_one_file (readCsv p) cz
        if d.isEmpty then acc else acc ++ [d]) []) = []) := by
      intro hx
      rw [hx] at he
      exact he rfl
    refine ⟨⟨?_, fun hall =>
        absurd ((mainAccum_eq_nil readCsv cz paths []).mpr ⟨rfl, hall⟩) hne2⟩,
      fun _ => ?_⟩
    · rintro ⟨msg, hmsg⟩
      rw [hun, if_neg he] at hmsg
      exact absurd hmsg (by simp)
    · rw [hun, if_neg he]
      exact ⟨_, rfl⟩

/-- Concrete instantiation of `c7_empty_union_fatal`: one year, whose file
holds a single non-region row, makes the run raise the empty-union error;
the same setup with a region row yields an artifact. -/
theorem c7_empty_union_fatal_witness :
    ∃ msg, main_transform ["StormEvents_details-ftp_v1.0_d2010_c20240101.csv"]
      (fun _ => [⟨("OHIO"), .vNone, .vNone, 201001⟩]) 2010 2010 200000 = .error msg :=
  ((c7_empty_union_fatal ["StormEvents_details-ftp_v1.0_d2010_c20240101.csv"]
      (fun _ => [⟨("OHIO"), .vNone, .vNone, 201001⟩]) 2010 2010 200000
      ["StormEvents_details-ftp_v1.0_d2010_c20240101.csv"] rfl).1).mpr
    (by decide)

/-- Claim C8: every row of the produced dataset has
`BEGIN_YEAR = BEGIN_YEARMONTH div 100` and
`BEGIN_MONTH = BEGIN_YEARMONTH mod 100` (both integer-valued by
construction). -/
theorem c8_begin_year_month (fsNames : List String) (readCsv : String → List EventRow)
    (s e cz : ℕ) (out : List OutRow)
    (hok : main_transform fsNames readCsv s e cz = .ok out) :
    ∀ r ∈ out, r.beginYear = r.base.row.beginYearMonth / 100 ∧
      r.beginMonth = r.base.row.beginYearMonth % 100 := by
  cases hiter : iter_year_files fsNames s e with
  | error msg =>
    have hbad : main_transform fsNames readCsv s e cz = .error msg := by
      rw [main_transform, hiter]
    rw [hbad] at hok
    exact absurd hok (by simp)
  | ok paths =>
    have hun : main_transform fsNames readCsv s e cz =
        (if (paths.foldl (fun acc p =>
            let d := load_filter_tx_one_file (readCsv p) cz
            if d.isEmpty then acc else acc ++ [d]) []).isEmpty then
          .error ("No Texas records found across all years.")
        else .ok ((paths.foldl (fun acc p =>
            let d := load_filter_tx_one_file (readCsv p) cz
            if d.isEmpty then acc else acc ++ [d]) []).flatten.map
          (fun nr => ⟨nr, nr.row.beginYearMonth / 100, nr.row.beginYearMonth % 100⟩))) := by
      rw [main_transform, hiter]
    rw [hun] at hok
    by_cases he : (paths.foldl (fun acc p =>
        let d := load_filter_tx_one_file (readCsv p) cz
        if d.isEmpty then acc else acc ++ [d]) []).isEmpty = true
    · rw [if_pos he] at hok
      exact absurd hok (by simp)
    · rw [if_neg he] at hok
      have hout : out = (paths.foldl (fun acc p =>
          let d := load_filter_tx_one_file (readCsv p) cz
          if d.isEmpty then acc else acc ++ [d]) []).flatten.map
          (fun nr => ⟨nr, nr.row.beginYearMonth / 100, nr.row.beginYearMonth % 100⟩) := by
        injection hok with h
        exact h.symm
      intro r hr
      rw [hout] at hr
      obtain ⟨nr, _, hnr⟩ := List.mem_map.mp hr
      rw [← hnr]
      exact ⟨rfl, rfl⟩

/-- Concrete instantiation of `c8_begin_year_month`: a single Texas row
with `BEGIN_YEARMONTH = 201503` yields `BEGIN_YEAR = 2015` and
`BEGIN_MONTH = 3`. -/
theorem c8_begin_year_month_witness :
    (⟨⟨⟨("Texas"), .vNone, .vNone, 201503⟩, 0, 0, 0 + 0⟩, 2015, 3⟩ : OutRow).beginYear =
      (⟨⟨⟨("Texas"), .vNone, .vNone, 201503⟩, 0, 0, 0 + 0⟩, 2015, 3⟩ : OutRow).base.row.beginYearMonth / 100 ∧
    (⟨⟨⟨("Texas"), .vNone, .vNone, 201503⟩, 0, 0, 0 + 0⟩, 2015, 3⟩ : OutRow).beginMonth =
      (⟨⟨⟨("Texas"), .vNone, .vNone, 201503⟩, 0, 0, 0 + 0⟩, 2015, 3⟩ : OutRow).base.row.beginYearMonth % 100 :=
  c8_begin_year_month ["StormEvents_details-ftp_v1.0_d2010_c20240101.csv"]
    (fun _ => [⟨("Texas"), .vNone, .vNone, 201503⟩]) 2010 2010 200000
    [⟨⟨⟨("Texas"), .vNone, .vNone, 201503⟩, 0, 0, 0 + 0⟩, 2015, 3⟩] rfl
    (⟨⟨⟨("Texas"), .vNone, .vNone, 201503⟩, 0, 0, 0 + 0⟩, 2015, 3⟩ : OutRow)
    (List.mem_singleton.mpr rfl)

/-! ### Lemmas: lexicographic order and sorting -/

theorem leChars_refl : ∀ l : List Char, leChars l l = true := by
  intro l
  induction l with
  | nil => rfl
  | cons c cs ih => simp [leChars, ih]

theorem leChars_total : ∀ a b : List Char, leChars a b = true ∨ leChars b a = true := by
  intro a
  induction a with
  | nil => intro b; exact Or.inl rfl
  | cons x xs ih =>
    intro b
    cases b with
    | nil => exact Or.inr rfl
    | cons y ys =>
      by_cases h1 : x.toNat < y.toNat
      · exact Or.inl (by simp [leChars, h1])
      · by_cases h2 : y.toNat < x.toNat
        · exact Or.inr (by simp [leChars, h2])
        · have hx : ¬ x.toNat < y.toNat := h1
          rcases ih ys with h | h
          · exact Or.inl (by simp [leChars, h1, h2, h])
          · exact Or.inr (by simp [leChars, h1, h2, h])

theorem leChars_trans :
    ∀ a b c : List Char, leChars a b = true → leChars b c = true → leChars a c = true := by
  intro a
  induction a with
  | nil => intro b c _ _; rfl
  | cons x xs ih =>
    intro b c hab hbc
    cases b with
    | nil => simp [leChars] at hab
    | cons y ys =>
      cases c with
      | nil => simp [leChars] at hbc
      | cons z zs =>
        simp only [leChars] at hab hbc ⊢
        by_cases hxy : x.toNat < y.toNat
        · by_cases hyz : y.toNat < z.toNat
          · rw [if_pos (by omega)]
          · rw [if_neg hyz] at hbc
            by_cases hzy : z.toNat < y.toNat
            · rw [if_pos hzy] at hbc
              exact absurd hbc (by simp)
            · rw [if_pos (by omega)]
        · rw [if_neg hxy] at hab
          by_cases hyx : y.toNat < x.toNat
          · rw [if_pos hyx] at hab
            exact absurd hab (by simp)
          · rw [if_neg hyx] at hab
            by_cases hyz : y.toNat < z.toNat
            · rw [if_pos (by omega)]
            · rw [if_neg hyz] at hbc
              by_cases hzy : z.toNat < y.toNat
              · rw [if_pos hzy] at hbc
                exact absurd hbc (by simp)
              · rw [if_neg hzy] at hbc
                rw [if_neg (by omega), if_neg (by omega)]
                exact ih ys zs hab hbc

theorem leStr_refl (a : String) : leStr a a = true := leChars_refl a.data

theorem leStr_total (a b : String) : leStr a b = true ∨ leStr b a = true :=
  leChars_total a.data b.data

theorem leStr_trans {a b c : String} (h1 : leStr a b = true) (h2 : leStr b c = true) :
    leStr a c = true := leChars_trans a.data b.data c.data h1 h2

theorem mem_insSorted (x a : String) :
    ∀ l : List String, a ∈ insSorted x l ↔ a = x ∨ a ∈ l := by
  intro l
  induction l with
  | nil => simp [insSorted]
  | cons y ys ih =>
    by_cases h : leStr x y = true
    · simp [insSorted, h]
    · simp only [insSorted, if_neg h, List.mem_cons, ih]
      tauto

theorem pairwise_insSorted (x : String) :
    ∀ l : List String, l.Pairwise (fun a b => leStr a b = true) →
      (insSorted x l).Pairwise (fun a b => leStr a b = true) := by
  intro l
  induction l with
  | nil => intro _; simp [insSorted]
  | cons y ys ih =>
    intro hp
    obtain ⟨hy, hys⟩ := List.pairwise_cons.mp hp
    by_cases h : leStr x y = true
    · rw [insSorted, if_pos h]
      refine List.pairwise_cons.mpr ⟨?_, hp⟩
      intro b hb
      rcases List.mem_cons.mp hb with rfl | hb2
      · exact h
      · exact leStr_trans h (hy b hb2)
    · rw [insSorted, if_neg h]
      refine List.pairwise_cons.mpr ⟨?_, ih hys⟩
      intro b hb
      rcases (mem_insSorted x b ys).mp hb with hbx | hb2
      · rcases leStr_total x y with hxy | hyx
        · exact absurd hxy h
        · rw [hbx]
          exact hyx
      · exact hy b hb2

theorem mem_sortStr (a : String) : ∀ l : List String, a ∈ sortStr l ↔ a ∈ l := by
  intro l
  induction l with
  | nil => simp [sortStr]
  | cons x xs ih =>
    simp only [sortStr, mem_insSorted, List.mem_cons, ih]

theorem pairwise_sortStr :
    ∀ l : List String, (sortStr l).Pairwise (fun a b => leStr a b = true) := by
  intro l
  induction l with
  | nil => simp [sortStr]
  | cons x xs ih => exact pairwise_insSorted x (sortStr xs) ih

theorem getLast?_max_of_pairwise :
    ∀ (l : List String) (m : String),
      l.Pairwise (fun a b => leStr a b = true) → l.getLast? = some m →
      ∀ q ∈ l, leStr q m = true := by
  intro l
  induction l with
  | nil => intro m _ h; simp at h
  | cons x xs ih =>
    intro m hp hl q hq
    obtain ⟨hx, hxs⟩ := List.pairwise_cons.mp hp
    cases xs with
    | nil =>
      simp only [List.getLast?_singleton, Option.some.injEq] at hl
      rcases List.mem_cons.mp hq with rfl | hq2
      · rw [hl]
        exact leStr_refl m
      · simp at hq2
    | cons y ys =>
      rw [List.getLast?_cons_cons] at hl
      have hmem : m ∈ y :: ys := List.mem_of_mem_getLast? hl
      rcases List.mem_cons.mp hq with rfl | hq2
      · exact leStr_trans (hx m hmem) (leStr_refl m)
      · exact ih m hxs hl q hq2

/-- `sorted(l)[-1]` is a maximum of `l`. -/
theorem sortStr_getLast_max (l : List String) (m : String)
    (h : (sortStr l).getLast? = some m) :
    m ∈ l ∧ ∀ q ∈ l, leStr q m = true := by
  constructor
  · exact (mem_sortStr m l).mp (List.mem_of_mem_getLast? h)
  · intro q hq
    exact getLast?_max_of_pairwise (sortStr l) m (pairwise_sortStr l) h q
      ((mem_sortStr q l).mpr hq)

/-! ### Lemmas: iter_year_files -/

theorem iterYearsGo_spec (fs : List String) :
    ∀ ys : List ℕ,
      ((∃ msg, iterYearsGo fs ys = .error msg) ↔
        ∃ y ∈ ys, fs.filter (globYear y) = []) ∧
      (∀ ps, iterYearsGo fs ys = .ok ps →
        List.Forall₂ (fun y p => p ∈ fs.filter (globYear y) ∧
          ∀ q ∈ fs.filter (globYear y), leStr q p = true) ys ps) := by
  intro ys
  induction ys with
  | nil =>
    constructor
    · simp [iterYearsGo]
    · intro ps h
      simp only [iterYearsGo, Except.ok.injEq] at h
      rw [← h]
      exact List.Forall₂.nil
  | cons y ys ih =>
    have hunf : iterYearsGo fs (y :: ys) =
        (match (sortStr (fs.filter (globYear y))).getLast? with
         | none => .error ("No CSV found for year " ++ toString y ++ " in data/raw")
         | some p =>
           match iterYearsGo fs ys with
           | .error msg => .error msg
           | .ok ps => .ok (p :: ps)) := rfl
    cases hms : (sortStr (fs.filter (globYear y))).getLast? with
    | none =>
      have herr : iterYearsGo fs (y :: ys) =
          .error ("No CSV found for year " ++ toString y ++ " in data/raw") := by
        rw [hunf, hms]
      have hfil : fs.filter (globYear y) = [] := by
        cases hf : fs.filter (globYear y) with
        | nil => rfl
        | cons a l =>
          have ha : a ∈ sortStr (fs.filter (globYear y)) :=
            (mem_sortStr a _).mpr (by rw [hf]; exact List.mem_cons_self a l)
          rw [List.getLast?_eq_none_iff.mp hms] at ha
          exact absurd ha (by simp)
      refine ⟨⟨fun _ => ⟨y, by simp, hfil⟩, fun _ => ⟨_, herr⟩⟩, ?_⟩
      intro ps hps
      rw [herr] at hps
      exact absurd hps (by simp)
    | some p =>
      obtain ⟨hpmem, hpmax⟩ := sortStr_getLast_max _ p hms
      cases hrec : iterYearsGo fs ys with
      | error msg =>
        have herr : iterYearsGo fs (y :: ys) = .error msg := by
          rw [hunf, hms, hrec]
        refine ⟨⟨fun _ => ?_, fun _ => ⟨msg, herr⟩⟩, ?_⟩
        · obtain ⟨yy, hyy, hfil⟩ := (ih.1).mp ⟨msg, hrec⟩
          exact ⟨yy, by simp [hyy], hfil⟩
        · intro ps hps
          rw [herr] at hps
          exact absurd hps (by simp)
      | ok ps =>
        have hok2 : iterYearsGo fs (y :: ys) = .ok (p :: ps) := by
          rw [hunf, hms, hrec]
        refine ⟨⟨?_, ?_⟩, ?_⟩
        · rintro ⟨msg, hmsg⟩
          rw [hok2] at hmsg
          exact absurd hmsg (by simp)
        · rintro ⟨yy, hyy, hfil⟩
          rcases List.mem_cons.mp hyy with rfl | hyy2
          · rw [hfil] at hpmem
            exact absurd hpmem (by simp)
          · obtain ⟨msg, hmsg⟩ := (ih.1).mpr ⟨yy, hyy2, hfil⟩
            rw [hrec] at hmsg
            exact absurd hmsg (by simp)
        · intro ps2 hps2
          rw [hok2] at hps2
          injection hps2 with h
          rw [← h]
          exact List.Forall₂.cons ⟨hpmem, hpmax⟩ (ih.2 ps hrec)

theorem mem_yearRange (s e y : ℕ) : y ∈ yearRange s e ↔ s ≤ y ∧ y ≤ e := by
  simp only [yearRange, List.mem_map, List.mem_range]
  constructor
  · rintro ⟨i, hi, rfl⟩
    omega
  · rintro ⟨h1, h2⟩
    exact ⟨y - s, by omega, by omega⟩

/-! ### Claim C6 (iter_year_files) -/

/-- Claim C6: for every year in the configured inclusive range,
`iter_year_files` yields the lexicographically last filesystem name
matching that year's glob pattern when matches exist, and raises a
file-not-found error exactly when some year in the range has zero
matches. -/
theorem c6_last_match_or_missing (fs : List String) (s e : ℕ) :
    ((∃ msg, iter_year_files fs s e = .error msg) ↔
      ∃ y, s ≤ y ∧ y ≤ e ∧ fs.filter (globYear y) = []) ∧
    (∀ ps, iter_year_files fs s e = .ok ps →
      List.Forall₂ (fun y p => p ∈ fs.filter (globYear y) ∧
        ∀ q ∈ fs.filter (globYear y), leStr q p = true) (yearRange s e) ps) := by
  have h := iterYearsGo_spec fs (yearRange s e)
  constructor
  · rw [iter_year_files, h.1]
    constructor
    · rintro ⟨y, hy, hfil⟩
      obtain ⟨h1, h2⟩ := (mem_yearRange s e y).mp hy
      exact ⟨y, h1, h2, hfil⟩
    · rintro ⟨y, h1, h2, hfil⟩
      exact ⟨y, (mem_yearRange s e y).mpr ⟨h1, h2⟩, hfil⟩
  · exact h.2

/-- Concrete instantiation of `c6_last_match_or_missing`: with two
matching files for 2010 present, the run yields the lexicographically
larger one. -/
theorem c6_last_match_or_missing_witness :
    List.Forall₂ (fun y p =>
        p ∈ ["StormEvents_details-ftp_v1.0_d2010_c20230101.csv", "StormEvents_details-ftp_v1.0_d2010_c20240101.csv"].filter (globYear y) ∧
        ∀ q ∈ ["StormEvents_details-ftp_v1.0_d2010_c20230101.csv", "StormEvents_details-ftp_v1.0_d2010_c20240101.csv"].filter (globYear y),
          leStr q p = true)
      (yearRange 2010 2010) ["StormEvents_details-ftp_v1.0_d2010_c20240101.csv"] :=
  (c6_last_match_or_missing
      ["StormEvents_details-ftp_v1.0_d2010_c20230101.csv", "StormEvents_details-ftp_v1.0_d2010_c20240101.csv"]
      2010 2010).2
    ["StormEvents_details-ftp_v1.0_d2010_c20240101.csv"] rfl

/-! ### Lemmas: takeWhile / dropWhile on classified lists -/

theorem data_mk (l : List Char) : (String.mk l).data = l := rfl

theorem takeWhile_all_append (p : Char → Bool) :
    ∀ (l r : List Char), (∀ c ∈ l, p c = true) →
      (∀ c t, r = c :: t → p c = false) →
      (l ++ r).takeWhile p = l ∧ (l ++ r).dropWhile p = r := by
  intro l
  induction l with
  | nil =>
    intro r _ hr
    cases r with
    | nil => simp
    | cons c t =>
      simp [List.takeWhile_cons, List.dropWhile_cons, hr c t rfl]
  | cons x xs ih =>
    intro r hl hr
    have hx : p x = true := hl x (by simp)
    have hrest := ih r (fun c hc => hl c (by simp [hc])) hr
    simp only [List.cons_append, List.takeWhile_cons, List.dropWhile_cons, hx, if_pos,
      hrest.1, hrest.2]
    exact ⟨trivial, trivial⟩

theorem dropWhile_all_append (p : Char → Bool) :
    ∀ (w x : List Char), (∀ c ∈ w, p c = true) →
      (w ++ x).dropWhile p = x.dropWhile p := by
  intro w
  induction w with
  | nil => intro x _; rfl
  | cons a as ih =>
    intro x hw
    have ha : p a = true := hw a (by simp)
    simp only [List.cons_append, List.dropWhile_cons, ha, if_pos]
    exact ih x (fun c hc => hw c (by simp [hc]))

theorem dropWhile_of_head_false (p : Char → Bool) (l : List Char)
    (h : ∀ c t, l = c :: t → p c = false) : l.dropWhile p = l := by
  cases l with
  | nil => rfl
  | cons c t => simp [List.dropWhile_cons, h c t rfl]

theorem stripData_sandwich (w1 w2 core : List Char)
    (hw1 : ∀ c ∈ w1, isWs c = true) (hw2 : ∀ c ∈ w2, isWs c = true)
    (hcne : core ≠ [])
    (hhead : ∀ c t, core = c :: t → isWs c = false)
    (hlast : ∀ c t, core.reverse = c :: t → isWs c = false) :
    stripData (w1 ++ core ++ w2) = core := by
  rw [stripData]
  have h1 : (w1 ++ core ++ w2).dropWhile isWs = core ++ w2 := by
    rw [List.append_assoc, dropWhile_all_append isWs w1 (core ++ w2) hw1]
    apply dropWhile_of_head_false
    intro c t hct
    cases core with
    | nil => exact absurd rfl hcne
    | cons c0 t0 =>
      simp only [List.cons_append, List.cons.injEq] at hct
      rw [← hct.1]
      exact hhead c0 t0 rfl
  rw [h1, List.reverse_append]
  have h2 : (w2.reverse ++ core.reverse).dropWhile isWs = core.reverse := by
    rw [dropWhile_all_append isWs w2.reverse core.reverse
      (fun c hc => hw2 c (List.mem_reverse.mp hc))]
    exact dropWhile_of_head_false isWs core.reverse hlast
  rw [h2, List.reverse_reverse]

/-! ### Lemmas: character classes of the damage suffix -/

theorem kmb_not_ws {ch : Char} (hk : upChar ch = 'K' ∨ upChar ch = 'M' ∨ upChar ch = 'B') :
    isWs ch = false := by
  by_contra hcon
  rw [Bool.not_eq_false, isWs_iff] at hcon
  have hup : upChar ch = ch := by
    rw [upChar, if_neg]
    omega
  rw [hup] at hk
  rcases hk with h2 | h2 | h2 <;>
    (first
      | (have h3 : ch.toNat = 75 := by rw [h2]; rfl
         omega)
      | (have h3 : ch.toNat = 77 := by rw [h2]; rfl
         omega)
      | (have h3 : ch.toNat = 66 := by rw [h2]; rfl
         omega))

theorem kmb_not_dig {ch : Char} (hk : upChar ch = 'K' ∨ upChar ch = 'M' ∨ upChar ch = 'B') :
    isDig ch = false := by
  by_contra hcon
  rw [Bool.not_eq_false, isDig_iff] at hcon
  have hup : upChar ch = ch := by
    rw [upChar, if_neg]
    omega
  rw [hup] at hk
  rcases hk with h2 | h2 | h2 <;>
    (first
      | (have h3 : ch.toNat = 75 := by rw [h2]; rfl
         omega)
      | (have h3 : ch.toNat = 77 := by rw [h2]; rfl
         omega)
      | (have h3 : ch.toNat = 66 := by rw [h2]; rfl
         omega))

theorem kmb_ne_dot {ch : Char} (hk : upChar ch = 'K' ∨ upChar ch = 'M' ∨ upChar ch = 'B') :
    ch ≠ '.' := by
  intro h
  rw [h] at hk
  rcases hk with h2 | h2 | h2 <;> exact absurd h2 (by decide)

theorem kmb_isKMB {ch : Char} (hk : upChar ch = 'K' ∨ upChar ch = 'M' ∨ upChar ch = 'B') :
    isKMB ch = true := by
  rw [isKMB]
  simpa using hk

/-! ### Rendering of the claimed decimal-with-suffix strings (statement side) -/

/-- The text of a `[0-9]*\.?[0-9]+` number with integer digits `ip` and
fractional digits `fp` (dot present exactly when `fp` is non-empty). -/
def numRender (ip fp : List Char) : List Char :=
  if fp.isEmpty then ip else ip ++ '.' :: fp

/-- The text of the optional suffix group. -/
def sfxRender : Option Char → List Char
  | none => []
  | some c => [c]

/-- The numeric value of the rendered number. -/
def numVal (ip fp : List Char) : ℚ :=
  (digitsVal ip : ℚ) + (digitsVal fp : ℚ) / ((10 : ℚ) ^ fp.length)

/-- The claimed multiplier of the optional suffix. -/
def multOfSfx : Option Char → ℚ
  | none => 1
  | some c =>
    if upChar c = 'K' then 1000
    else if upChar c = 'M' then 1000000
    else if upChar c = 'B' then 1000000000
    else 1

/-! ### Lemmas: the damage parser on rendered inputs -/

theorem numTail_render (g1 : List Char) (sfx : Option Char)
    (hsfx : ∀ c, sfx = some c → upChar c = 'K' ∨ upChar c = 'M' ∨ upChar c = 'B') :
    numTail g1 (sfxRender sfx) = some (g1, sfx) := by
  cases sfx with
  | none => rfl
  | some ch =>
    have hk := hsfx ch rfl
    have hdw : ([ch] : List Char).dropWhile isWs = [ch] := by
      simp [List.dropWhile_cons, kmb_not_ws hk]
    simp [numTail, sfxRender, hdw, kmb_isKMB hk]

theorem floatOfDecimal_render (ip fp : List Char)
    (hip : ∀ c ∈ ip, isDig c = true) (hfp : ∀ c ∈ fp, isDig c = true) :
    floatOfDecimal (numRender ip fp) = numVal ip fp := by
  by_cases hfpe : fp.isEmpty = true
  · have hfp0 : fp = [] := List.isEmpty_iff.mp hfpe
    subst hfp0
    have hr : numRender ip [] = ip := rfl
    rw [hr]
    have h := takeWhile_all_append isDig ip [] hip
      (by intro c t hct; exact absurd hct (by simp))
    rw [List.append_nil] at h
    simp only [floatOfDecimal, h.1, h.2]
    simp [numVal, digitsVal]
  · have hr : numRender ip fp = ip ++ '.' :: fp := by
      rw [numRender, if_neg hfpe]
    rw [hr]
    have h := takeWhile_all_append isDig ip ('.' :: fp) hip
      (by
        intro c t hct
        injection hct with h1 _
        rw [← h1]
        decide)
    simp only [floatOfDecimal, h.1, h.2]
    simp [numVal]

theorem upperStr_num_ne {c0 : Char} (t0 : List Char)
    (h : isDig c0 = true ∨ c0 = '.') :
    (upperStr (String.mk (c0 :: t0)) == ("NA")) = false ∧
    (upperStr (String.mk (c0 :: t0)) == ("N/A")) = false := by
  have hup : upChar c0 ≠ 'N' := by
    rcases h with h | h
    · rw [upChar_of_dig h]
      intro he
      have h3 : c0.toNat = 78 := by rw [he]; rfl
      rw [isDig_iff] at h
      omega
    · rw [h]
      decide
  constructor
  · rw [beq_eq_false_iff_ne]
    intro he
    have h2 : upChar c0 :: List.map upChar t0 = ('N' :: 'A' :: []) :=
      congrArg String.data he
    injection h2 with hh _
    exact hup hh
  · rw [beq_eq_false_iff_ne]
    intro he
    have h2 : upChar c0 :: List.map upChar t0 = ('N' :: '/' :: 'A' :: []) :=
      congrArg String.data he
    injection h2 with hh _
    exact hup hh


theorem matchDamage_render (ip fp : List Char) (sfx : Option Char)
    (hip : ∀ c ∈ ip, isDig c = true) (hfp : ∀ c ∈ fp, isDig c = true)
    (hne : fp = [] → ip ≠ [])
    (hsfx : ∀ c, sfx = some c → upChar c = 'K' ∨ upChar c = 'M' ∨ upChar c = 'B') :
    matchDamage (numRender ip fp ++ sfxRender sfx) = some (numRender ip fp, sfx) := by
  have hsfxhead : ∀ c t, sfxRender sfx = c :: t → isDig c = false := by
    intro c t hct
    cases sfx with
    | none => exact absurd hct (by simp [sfxRender])
    | some ch =>
      simp only [sfxRender, List.cons.injEq] at hct
      rw [← hct.1]
      exact kmb_not_dig (hsfx ch rfl)
  by_cases hfpe : fp.isEmpty = true
  · have hfp0 : fp = [] := List.isEmpty_iff.mp hfpe
    subst hfp0
    have hr : numRender ip [] = ip := rfl
    rw [hr]
    have hipne := hne rfl
    obtain ⟨i0, it, rfl⟩ : ∃ i0 it, ip = i0 :: it := by
      cases ip with
      | nil => exact absurd rfl hipne
      | cons a l => exact ⟨a, l, rfl⟩
    have hws : ((i0 :: it) ++ sfxRender sfx).dropWhile isWs =
        (i0 :: it) ++ sfxRender sfx := by
      apply dropWhile_of_head_false
      intro c t hct
      rw [List.cons_append] at hct
      injection hct with h1 _
      rw [← h1]
      exact not_ws_of_dig (hip i0 (by simp))
    have htd := takeWhile_all_append isDig (i0 :: it) (sfxRender sfx) hip hsfxhead
    simp only [matchDamage, hws, htd.1, htd.2]
    cases sfx with
    | none =>
      simp only [sfxRender]
      rw [if_neg (by simp : ¬((i0 :: it).isEmpty = true))]
      exact numTail_render (i0 :: it) none hsfx
    | some ch =>
      simp only [sfxRender]
      rw [if_neg (kmb_ne_dot (hsfx ch rfl)),
        if_neg (by simp : ¬((i0 :: it).isEmpty = true))]
      exact numTail_render (i0 :: it) (some ch) hsfx
  · have hr : numRender ip fp = ip ++ '.' :: fp := by
      rw [numRender, if_neg hfpe]
    rw [hr]
    have hassoc : (ip ++ '.' :: fp) ++ sfxRender sfx =
        ip ++ ('.' :: (fp ++ sfxRender sfx)) := by
      rw [List.append_assoc]
      rfl
    rw [hassoc]
    have hws : (ip ++ ('.' :: (fp ++ sfxRender sfx))).dropWhile isWs =
        ip ++ ('.' :: (fp ++ sfxRender sfx)) := by
      apply dropWhile_of_head_false
      intro c t hct
      cases ip with
      | nil =>
        rw [List.nil_append] at hct
        injection hct with h1 _
        rw [← h1]
        decide
      | cons a l =>
        rw [List.cons_append] at hct
        injection hct with h1 _
        rw [← h1]
        exact not_ws_of_dig (hip a (by simp))
    have htd := takeWhile_all_append isDig ip ('.' :: (fp ++ sfxRender sfx)) hip
      (by
        intro c t hct
        injection hct with h1 _
        rw [← h1]
        decide)
    have hfd := takeWhile_all_append isDig fp (sfxRender sfx) hfp hsfxhead
    simp only [matchDamage, hws, htd.1, htd.2]
    rw [if_pos trivial, hfd.1, hfd.2]
    rw [if_neg (by
      rw [Bool.not_eq_true, Bool.eq_false_iff, Ne, List.isEmpty_iff]
      intro h
      rw [h] at hfpe
      exact hfpe rfl)]
    have := numTail_render (ip ++ '.' :: fp) sfx hsfx
    exact this

theorem parseDamageStr_eval (s t : String) (g1 : List Char) (g2 : Option Char)
    (hstrip : stripStr s = t)
    (hempty : t.data.isEmpty = false)
    (hna : (upperStr t == ("NA")) = false)
    (hnsa : (upperStr t == ("N/A")) = false)
    (hmd : matchDamage t.data = some (g1, g2)) :
    parseDamageStr s = floatOfDecimal g1 *
      (if (upperStr (String.mk (g2.elim [] (fun c => [c]))) == ("K")) = true then 1000
       else if (upperStr (String.mk (g2.elim [] (fun c => [c]))) == ("M")) = true then 1000000
       else if (upperStr (String.mk (g2.elim [] (fun c => [c]))) == ("B")) = true then 1000000000
       else 1) := by
  simp only [parseDamageStr, hstrip, hempty, hna, hnsa, hmd, Bool.or_self, Bool.or_false,
    Bool.false_or]
  simp

theorem mult_eval (sfx : Option Char)
    (hsfx : ∀ c, sfx = some c → upChar c = 'K' ∨ upChar c = 'M' ∨ upChar c = 'B') :
    (if (upperStr (String.mk (sfx.elim [] (fun c => [c]))) == ("K")) = true then (1000 : ℚ)
     else if (upperStr (String.mk (sfx.elim [] (fun c => [c]))) == ("M")) = true then 1000000
     else if (upperStr (String.mk (sfx.elim [] (fun c => [c]))) == ("B")) = true then 1000000000
     else 1) = multOfSfx sfx := by
  cases sfx with
  | none => rfl
  | some ch =>
    have he : (some ch).elim ([] : List Char) (fun c => [c]) = [ch] := rfl
    have hu : upperStr (String.mk [ch]) = String.mk [upChar ch] := rfl
    rw [he, hu]
    simp only [multOfSfx]
    rcases hsfx ch rfl with hk | hk | hk <;> rw [hk] <;> rfl

/-- The damage parser on any string of the claimed shape: optional
surrounding whitespace, a decimal number, an optional case-insensitive
K/M/B suffix.  It returns the number times the suffix multiplier. -/
theorem parse_render (ip fp w1 w2 : List Char) (sfx : Option Char)
    (hip : ∀ c ∈ ip, isDig c = true) (hfp : ∀ c ∈ fp, isDig c = true)
    (hne : fp = [] → ip ≠ [])
    (hw1 : ∀ c ∈ w1, isWs c = true) (hw2 : ∀ c ∈ w2, isWs c = true)
    (hsfx : ∀ c, sfx = some c → upChar c = 'K' ∨ upChar c = 'M' ∨ upChar c = 'B') :
    parse_damage_to_dollars
        (.vStr (String.mk (w1 ++ (numRender ip fp ++ sfxRender sfx) ++ w2))) =
      numVal ip fp * multOfSfx sfx := by
  obtain ⟨c0, t0, hcore0, hc0⟩ :
      ∃ c0 t0, numRender ip fp = c0 :: t0 ∧ (isDig c0 = true ∨ c0 = '.') := by
    rw [numRender]
    by_cases hfpe : fp.isEmpty = true
    · rw [if_pos hfpe]
      have hipne := hne (List.isEmpty_iff.mp hfpe)
      cases ip with
      | nil => exact absurd rfl hipne
      | cons a l => exact ⟨a, l, rfl, Or.inl (hip a (by simp))⟩
    · rw [if_neg hfpe]
      cases ip with
      | nil => exact ⟨'.', fp, rfl, Or.inr rfl⟩
      | cons a l => exact ⟨a, l ++ '.' :: fp, by simp, Or.inl (hip a (by simp))⟩
  have hcoreshape : numRender ip fp ++ sfxRender sfx = c0 :: (t0 ++ sfxRender sfx) := by
    rw [hcore0]
    rfl
  have hallnw : ∀ c ∈ numRender ip fp ++ sfxRender sfx, isWs c = false := by
    intro c hc
    rcases List.mem_append.mp hc with hc | hc
    · rw [numRender] at hc
      by_cases hfpe : fp.isEmpty = true
      · rw [if_pos hfpe] at hc
        exact not_ws_of_dig (hip c hc)
      · rw [if_neg hfpe] at hc
        rcases List.mem_append.mp hc with hc | hc
        · exact not_ws_of_dig (hip c hc)
        · rcases List.mem_cons.mp hc with rfl | hc
          · decide
          · exact not_ws_of_dig (hfp c hc)
    · cases sfx with
      | none => exact absurd hc (by simp [sfxRender])
      | some ch =>
        simp only [sfxRender, List.mem_singleton] at hc
        rw [hc]
        exact kmb_not_ws (hsfx ch rfl)
  have hstrip : stripStr (String.mk (w1 ++ (numRender ip fp ++ sfxRender sfx) ++ w2)) =
      String.mk (numRender ip fp ++ sfxRender sfx) :=
    congrArg String.mk (stripData_sandwich w1 w2 _ hw1 hw2
      (by rw [hcoreshape]; simp)
      (fun c t h => hallnw c (by rw [h]; simp))
      (fun c t h => hallnw c (List.mem_reverse.mp (by rw [h]; simp))))
  have hupper := upperStr_num_ne (t0 ++ sfxRender sfx) hc0
  have hmd := matchDamage_render ip fp sfx hip hfp hne hsfx
  have heval := parseDamageStr_eval
    (String.mk (w1 ++ (numRender ip fp ++ sfxRender sfx) ++ w2))
    (String.mk (numRender ip fp ++ sfxRender sfx))
    (numRender ip fp) sfx hstrip
    (by rw [data_mk, hcoreshape]; rfl)
    (by rw [hcoreshape]; exact hupper.1)
    (by rw [hcoreshape]; exact hupper.2)
    (by rw [data_mk]; exact hmd)
  simp only [parse_damage_to_dollars]
  rw [heval, floatOfDecimal_render ip fp hip hfp, mult_eval sfx hsfx]

/-! ### Claim C2 (parse_damage_to_dollars) -/

/-- Claim C2: `parse_damage_to_dollars` is total and obeys the claimed
rules in order: null-like input (`None`, `""`, `"NA"`, `"N/A"`) gives 0;
an already-numeric input passes through as-is; a decimal number with an
optional case-insensitive K/M/B suffix and optional surrounding whitespace
gives the number times 1, 1000, 1000000 or 1000000000; and EVERY other
string — every string whose stripped text does not match the damage
pattern (e.g. `"garbage"`) — gives 0 without raising (totality holds by
construction: the embedding is a total function). -/
theorem c2_parse_damage_total (q : ℚ) (ip fp w1 w2 : List Char) (sfx : Option Char)
    (hip : ∀ c ∈ ip, isDig c = true) (hfp : ∀ c ∈ fp, isDig c = true)
    (hne : fp = [] → ip ≠ [])
    (hw1 : ∀ c ∈ w1, isWs c = true) (hw2 : ∀ c ∈ w2, isWs c = true)
    (hsfx : ∀ c, sfx = some c → upChar c = 'K' ∨ upChar c = 'M' ∨ upChar c = 'B') :
    parse_damage_to_dollars .vNone = 0 ∧
    parse_damage_to_dollars (.vStr ("")) = 0 ∧
    parse_damage_to_dollars (.vStr ("NA")) = 0 ∧
    parse_damage_to_dollars (.vStr ("N/A")) = 0 ∧
    parse_damage_to_dollars (.vNum q) = q ∧
    parse_damage_to_dollars
        (.vStr (String.mk (w1 ++ (numRender ip fp ++ sfxRender sfx) ++ w2))) =
      numVal ip fp * multOfSfx sfx ∧
    parse_damage_to_dollars (.vStr ("10.5K")) = 10500 ∧
    parse_damage_to_dollars (.vStr ("2M")) = 2000000 ∧
    parse_damage_to_dollars (.vStr ("0.75B")) = 750000000 ∧
    parse_damage_to_dollars (.vStr ("500")) = 500 ∧
    parse_damage_to_dollars (.vNum ((1234 : ℚ) / 10)) = (1234 : ℚ) / 10 ∧
    parse_damage_to_dollars (.vStr ("garbage")) = 0 ∧
    (∀ s : String, matchDamage (stripStr s).data = none →
      parse_damage_to_dollars (.vStr s) = 0) := by
  refine ⟨by decide, by decide, by decide, by decide, rfl,
    parse_render ip fp w1 w2 sfx hip hfp hne hw1 hw2 hsfx, ?_, ?_, ?_, ?_, rfl, by decide,
    ?_⟩
  · have h := parse_render ['1', '0'] ['5'] [] [] (some 'K') (by decide) (by decide)
      (by decide) (by decide) (by decide)
      (by
        intro c hc
        injection hc with hc2
        rw [← hc2]
        decide)
    have v : numVal ['1', '0'] ['5'] * multOfSfx (some 'K') = 10500 := by
      have d1 : digitsVal ['1', '0'] = 10 := rfl
      have d2 : digitsVal ['5'] = 5 := rfl
      have m1 : multOfSfx (some 'K') = 1000 := rfl
      rw [numVal, d1, d2, m1]
      norm_num
    rw [← v]
    exact h
  · have h := parse_render ['2'] [] [] [] (some 'M') (by decide) (by decide)
      (by decide) (by decide) (by decide)
      (by
        intro c hc
        injection hc with hc2
        rw [← hc2]
        decide)
    have v : numVal ['2'] [] * multOfSfx (some 'M') = 2000000 := by
      have d1 : digitsVal ['2'] = 2 := rfl
      have d2 : digitsVal ([] : List Char) = 0 := rfl
      have m1 : multOfSfx (some 'M') = 1000000 := rfl
      rw [numVal, d1, d2, m1]
      norm_num
    rw [← v]
    exact h
  · have h := parse_render ['0'] ['7', '5'] [] [] (some 'B') (by decide) (by decide)
      (by decide) (by decide) (by decide)
      (by
        intro c hc
        injection hc with hc2
        rw [← hc2]
        decide)
    have v : numVal ['0'] ['7', '5'] * multOfSfx (some 'B') = 750000000 := by
      have d1 : digitsVal ['0'] = 0 := rfl
      have d2 : digitsVal ['7', '5'] = 75 := rfl
      have m1 : multOfSfx (some 'B') = 1000000000 := rfl
      rw [numVal, d1, d2, m1]
      norm_num
    rw [← v]
    exact h
  · have h := parse_render ['5', '0', '0'] [] [] [] none (by decide) (by decide)
      (by decide) (by decide) (by decide)
      (fun c hc => Option.noConfusion hc)
    have v : numVal ['5', '0', '0'] [] * multOfSfx none = 500 := by
      have d1 : digitsVal ['5', '0', '0'] = 500 := rfl
      have d2 : digitsVal ([] : List Char) = 0 := rfl
      have m1 : multOfSfx none = 1 := rfl
      rw [numVal, d1, d2, m1]
      norm_num
    rw [← v]
    exact h
  · intro s hnone
    simp only [parse_damage_to_dollars, parseDamageStr, hnone]
    split <;> rfl

/-- Concrete instantiation of `c2_parse_damage_total`, at the number
`" 5"` (one leading space, digits `5`, no fraction, no suffix). -/
theorem c2_parse_damage_total_witness :
    ((∀ c ∈ (['5'] : List Char), isDig c = true) ∧
     (∀ c ∈ ([] : List Char), isDig c = true) ∧
     (([] : List Char) = [] → (['5'] : List Char) ≠ []) ∧
     (∀ c ∈ ([' '] : List Char), isWs c = true) ∧
     (∀ c ∈ ([] : List Char), isWs c = true) ∧
     (∀ c : Char, (none : Option Char) = some c →
        upChar c = 'K' ∨ upChar c = 'M' ∨ upChar c = 'B')) ∧
    (parse_damage_to_dollars .vNone = 0 ∧
     parse_damage_to_dollars (.vStr ("")) = 0 ∧
     parse_damage_to_dollars (.vStr ("NA")) = 0 ∧
     parse_damage_to_dollars (.vStr ("N/A")) = 0 ∧
     parse_damage_to_dollars (.vNum 0) = 0 ∧
     parse_damage_to_dollars
         (.vStr (String.mk ([' '] ++ (numRender ['5'] [] ++ sfxRender none) ++ []))) =
       numVal ['5'] [] * multOfSfx none ∧
     parse_damage_to_dollars (.vStr ("10.5K")) = 10500 ∧
     parse_damage_to_dollars (.vStr ("2M")) = 2000000 ∧
     parse_damage_to_dollars (.vStr ("0.75B")) = 750000000 ∧
     parse_damage_to_dollars (.vStr ("500")) = 500 ∧
     parse_damage_to_dollars (.vNum ((1234 : ℚ) / 10)) = (1234 : ℚ) / 10 ∧
     parse_damage_to_dollars (.vStr ("garbage")) = 0 ∧
     (∀ s : String, matchDamage (stripStr s).data = none →
       parse_damage_to_dollars (.vStr s) = 0)) :=
  ⟨⟨by decide, by decide, by decide, by decide, by decide,
    fun c hc => Option.noConfusion hc⟩,
   c2_parse_damage_total 0 ['5'] [] [' '] [] none (by decide) (by decide) (by decide)
     (by decide) (by decide) (fun c hc => Option.noConfusion hc)⟩
